import Mathlib

/-!
Shallow embedding of the `LinearRegression` class in
`linear_regression-checkpoint.py` (numpy floats modelled as rationals,
numpy arrays as lists).  The external library calls are kept at the
boundary: `np.linalg.pinv` is a function parameter `pinv`, and the
external `Scorer` collaborator is a pair of function parameters.
-/

namespace LinReg

/-- `np.dot` of two 1-D arrays. -/
def dot (v u : List ℚ) : ℚ := (List.zipWith (· * ·) v u).sum

/-- `np.dot(X, w)` for a 2-D `X` and 1-D `w` (note `w.T` is a no-op on 1-D). -/
def matVec (X : List (List ℚ)) (w : List ℚ) : List ℚ := X.map (fun r => dot r w)

/-- `np.dot(A, B)` for 2-D `A`, `B`: entry `(i, j)` is `dot (row i of A) (col j of B)`. -/
def matMul (A B : List (List ℚ)) : List (List ℚ) :=
  A.map (fun r => B.transpose.map (fun c => dot r c))

/-- Elementwise subtraction of equally long 1-D arrays. -/
def vsub (v u : List ℚ) : List ℚ := List.zipWith (· - ·) v u

/-- Elementwise addition of equally long 1-D arrays. -/
def vadd (v u : List ℚ) : List ℚ := List.zipWith (· + ·) v u

/-- Scalar times 1-D array. -/
def smul (c : ℚ) (v : List ℚ) : List ℚ := v.map (fun x => c * x)

/-- `np.sum(v ** 2)`. -/
def sumSq (v : List ℚ) : ℚ := (v.map (fun x => x ^ 2)).sum

/-- An argument array that may be 1-D (`ndim == 1`) or 2-D. -/
inductive NpArray where
  | vec : List ℚ → NpArray
  | mat : List (List ℚ) → NpArray
deriving DecidableEq

/-- `X[:, None]` applied when needed: the 2-D view of an argument array. -/
def NpArray.toMat : NpArray → List (List ℚ)
  | .vec v => v.map (fun x => [x])
  | .mat rows => rows

/-- `X.shape[0]`. -/
def NpArray.dim0 : NpArray → ℕ
  | .vec v => v.length
  | .mat rows => rows.length

/-- `np.concatenate([np.ones((m, 1)), X], axis=1)`. -/
def augMat (m : ℕ) (rows : List (List ℚ)) : List (List ℚ) :=
  List.zipWith (fun o r => o :: r) (List.replicate m (1 : ℚ)) rows

/-- The `if X.ndim == 1` branch shared by `fit` and `predict`: promote a 1-D
array to a single column, then prepend the ones column. -/
def augInput (m : ℕ) : NpArray → List (List ℚ)
  | .vec v => augMat m (v.map (fun x => [x]))
  | .mat rows => augMat m rows

/-- The instance fields set by `fit` and read by the other methods. -/
structure State where
  alpha_ : ℚ
  X : List (List ℚ)
  y : List ℚ
  w : List ℚ
  num_iters : ℕ
  lambda_ : ℚ
deriving DecidableEq

/-- The method `cost`: regularized squared-error cost read off the fields
`X` (already augmented), `y`, `w`, `lambda_`. -/
def cost (X : List (List ℚ)) (y w : List ℚ) (lam : ℚ) : ℚ :=
  let m : ℚ := (y.length : ℚ)
  let y_hat := matVec X w
  (1 / (2 * m)) * sumSq (vsub y_hat y) + (lam / (2 * m)) * sumSq w.tail

/-- One iteration of the loop body of `gradient_descent`, exactly as the code
runs it: `w_ = self.w` ALIASES the weight array, so `w_[0] = 0` zeroes the
bias of `self.w` itself before the update `self.w = self.w - alpha * grad`. -/
def gdStep (alpha lam : ℚ) (X : List (List ℚ)) (y w : List ℚ) : List ℚ :=
  let m : ℚ := (y.length : ℚ)
  let y_hat := matVec X w
  let w_ := w.set 0 0
  let grad := vadd (smul (1 / m) (matVec X.transpose (vsub y_hat y))) (smul (lam / m) w_)
  vsub w_ (smul alpha grad)

/-- `np.zeros(X.shape[1])`, the initial weight vector. -/
def zerosW (X : List (List ℚ)) : List ℚ := List.replicate (X.headD []).length (0 : ℚ)

/-- The weights after `n` iterations of the gradient-descent loop. -/
def gdW (alpha lam : ℚ) (X : List (List ℚ)) (y : List ℚ) (n : ℕ) : List ℚ :=
  (gdStep alpha lam X y)^[n] (zerosW X)

/-- The loop of `gradient_descent`: `i` is the current iteration index,
the second argument the number of remaining iterations; returns the final
weights together with the cost-history association list `cpi` (a model of
the python dict, keyed in insertion order). -/
def gdAux (alpha lam : ℚ) (X : List (List ℚ)) (y : List ℚ) :
    ℕ → ℕ → List ℚ → List ℚ × List (ℕ × ℚ)
  | _, 0, w => (w, [])
  | i, fuel + 1, w =>
    let w' := gdStep alpha lam X y w
    let rest := gdAux alpha lam X y (i + 1) fuel w'
    if i % 10 = 0 then (rest.1, (i, cost X y w' lam) :: rest.2) else rest

/-- The method `gradient_descent` (it re-initializes `w` to zeros itself). -/
def gradient_descent (alpha lam : ℚ) (X : List (List ℚ)) (y : List ℚ)
    (num_iters : ℕ) : List ℚ × List (ℕ × ℚ) :=
  gdAux alpha lam X y 0 num_iters (zerosW X)

/-- The method `normal_eqn`:
`self.w = ((np.linalg.pinv(np.dot(self.X.T, self.X))) @ self.X.T) @ self.y`,
with the library call `np.linalg.pinv` passed in as `pinv`. -/
def normal_eqn (pinv : List (List ℚ) → List (List ℚ))
    (X : List (List ℚ)) (y : List ℚ) : List ℚ :=
  matVec (matMul (pinv (matMul X.transpose X)) X.transpose) y

/-- The method `fit`: augments `X`, stores the instance fields, chooses the
solver on `m < 10`, and returns the dict `\x7b'w': self.w, 'cpi': cpi\x7d`,
modelled as the final state paired with the optional cost history. -/
def fit (pinv : List (List ℚ) → List (List ℚ)) (alpha : ℚ) (X : NpArray)
    (y : List ℚ) (num_iters : ℕ) (lam : ℚ) : State × Option (List (ℕ × ℚ)) :=
  let m := y.length
  let Xa := augInput m X
  if m < 10 then
    ({ alpha_ := alpha, X := Xa, y := y, w := normal_eqn pinv Xa y,
       num_iters := num_iters, lambda_ := lam }, none)
  else
    let r := gradient_descent alpha lam Xa y num_iters
    ({ alpha_ := alpha, X := Xa, y := y, w := r.1,
       num_iters := num_iters, lambda_ := lam }, some r.2)

/-- The method `predict`: re-augments its argument (using `m = X.shape[0]`)
and returns `np.dot(X, self.w.T)`; the parameters `y` and `score` are
accepted but never read. -/
def predict (w : List ℚ) (X : NpArray) (y : List ℚ) (s : String) : List ℚ :=
  matVec (augInput X.dim0 X) w

/-- The method `score`: dispatches on the metric string to the external
`Scorer` collaborator (its two methods passed in as `rmse_` and `mse_`);
any other string leaves `score_metric` unassigned, modelled as `none`. -/
def score (rmse_ mse_ : List ℚ → List ℚ → ℚ) (y y_hat : List ℚ)
    (s : String) : Option ℚ :=
  if s = "rmse" then some (rmse_ y y_hat)
  else if s = "mse" then some (mse_ y y_hat)
  else none

/-- The gradient step as the spec describes it: `w_reg` is a COPY of `w`
with index 0 forced to zero, used only in the regularization term, and the
update is applied to the unmodified `w`.  Differs from `gdStep` exactly in
the vector the update starts from. -/
def gdStepSpec (alpha lam : ℚ) (X : List (List ℚ)) (y w : List ℚ) : List ℚ :=
  let m : ℚ := (y.length : ℚ)
  let y_hat := matVec X w
  let w_reg := w.set 0 0
  let grad := vadd (smul (1 / m) (matVec X.transpose (vsub y_hat y))) (smul (lam / m) w_reg)
  vsub w (smul alpha grad)

/-- The weights after `n` iterations of the gradient step as the spec
describes it. -/
def gdWSpec (alpha lam : ℚ) (X : List (List ℚ)) (y : List ℚ) (n : ℕ) : List ℚ :=
  (gdStepSpec alpha lam X y)^[n] (zerosW X)

/-- The ten-example design matrix of the concrete scenario in the spec. -/
def X10 : List (List ℚ) := [[1], [2], [3], [4], [5], [6], [7], [8], [9], [10]]

/-- The labels of the concrete scenario in the spec. -/
def y10 : List ℚ := [2, 4, 6, 8, 10, 12, 14, 16, 18, 20]

/-- A concrete stand-in for the `np.linalg.pinv` parameter; the gradient
descent path of `fit` never calls it. -/
def pinvTriv : List (List ℚ) → List (List ℚ) := fun A => A

/- ------------------------------------------------------------------ -/
/- Helper lemmas -/

theorem gdAux_fst (alpha lam : ℚ) (X : List (List ℚ)) (y : List ℚ) :
    ∀ (fuel i : ℕ) (w : List ℚ),
      (gdAux alpha lam X y i fuel w).1 = (gdStep alpha lam X y)^[fuel] w := by
  intro fuel
  induction fuel with
  | zero => intro i w; rfl
  | succ n ih =>
    intro i w
    by_cases h : i % 10 = 0 <;>
      simp [gdAux, h, ih, Function.iterate_succ_apply]

theorem gdAux_snd (alpha lam : ℚ) (X : List (List ℚ)) (y : List ℚ) :
    ∀ (fuel i : ℕ) (w : List ℚ),
      (gdAux alpha lam X y i fuel w).2 =
        (List.range fuel).filterMap (fun j =>
          if (i + j) % 10 = 0 then
            some (i + j, cost X y ((gdStep alpha lam X y)^[j + 1] w) lam)
          else none) := by
  intro fuel
  induction fuel with
  | zero => intro i w; rfl
  | succ n ih =>
    intro i w
    rw [List.range_succ_eq_map, List.filterMap_cons, List.filterMap_map]
    have tail_eq :
        (List.range n).filterMap
            ((fun j => if (i + j) % 10 = 0 then
                some (i + j, cost X y ((gdStep alpha lam X y)^[j + 1] w) lam)
              else none) ∘ Nat.succ) =
          (gdAux alpha lam X y (i + 1) n (gdStep alpha lam X y w)).2 := by
      rw [ih]
      apply List.filterMap_congr
      intro j _
      have harith : i + (j + 1) = i + 1 + j := by omega
      simp only [Function.comp_apply, Nat.succ_eq_add_one, harith,
        Function.iterate_succ_apply]
    rw [tail_eq]
    by_cases h : i % 10 = 0 <;>
      simp [gdAux, h, Function.iterate_one]

theorem fit_state_X (pinv : List (List ℚ) → List (List ℚ)) (alpha : ℚ)
    (X : NpArray) (y : List ℚ) (n : ℕ) (lam : ℚ) :
    (fit pinv alpha X y n lam).1.X = augInput y.length X := by
  by_cases h : y.length < 10 <;> simp [fit, h]

theorem sumSq_eq_sum_range (l : List ℚ) :
    sumSq l = ∑ i ∈ Finset.range l.length, (l.getD i 0) ^ 2 := by
  induction l with
  | nil => simp [sumSq]
  | cons x xs ih =>
    rw [show (x :: xs).length = xs.length + 1 from rfl, Finset.sum_range_succ']
    simp only [List.getD_cons_succ, List.getD_cons_zero]
    rw [← ih]
    simp [sumSq, add_comm]

theorem sumSq_vsub_eq_sum_range (a b : List ℚ) (h : a.length = b.length) :
    sumSq (vsub a b) =
      ∑ i ∈ Finset.range b.length, (a.getD i 0 - b.getD i 0) ^ 2 := by
  induction b generalizing a with
  | nil =>
    cases a with
    | nil => simp [sumSq, vsub]
    | cons x xs => simp at h
  | cons y ys ih =>
    cases a with
    | nil => simp at h
    | cons x xs =>
      have hlen : xs.length = ys.length := by simpa using h
      rw [show (y :: ys).length = ys.length + 1 from rfl, Finset.sum_range_succ']
      simp only [List.getD_cons_succ, List.getD_cons_zero]
      rw [← ih xs hlen]
      simp [sumSq, vsub, add_comm]

theorem matVec_getD (X : List (List ℚ)) (w : List ℚ) :
    ∀ i : ℕ, i < X.length → (matVec X w).getD i 0 = dot (X.getD i []) w := by
  induction X with
  | nil => intro i hi; simp at hi
  | cons r rs ih =>
    intro i hi
    cases i with
    | zero => simp [matVec]
    | succ j =>
      have hj : j < rs.length := by simpa using hi
      simpa [matVec] using ih j hj

theorem matVec_length (X : List (List ℚ)) (w : List ℚ) :
    (matVec X w).length = X.length := by
  simp [matVec]

theorem augInput_eq_augMat (m : ℕ) (X : NpArray) :
    augInput m X = augMat m X.toMat := by
  cases X <;> rfl

/- ------------------------------------------------------------------ -/
/- Claim theorems -/

/-- Claim C5: the cost is the pure function
`(1/(2m)) * sum over i of (y_hat i - y i)^2 + (lambda_/(2m)) * sum over j >= 1 of (w j)^2`
of the stored `X`, `y`, `w`, `lambda_`, with the bias weight `w 0` excluded
from the regularization penalty (purity holds by construction: `cost` is a
function of exactly those four values and returns a scalar). -/
theorem C5_cost_formula (X : List (List ℚ)) (y w : List ℚ) (lam : ℚ)
    (h : X.length = y.length) :
    cost X y w lam =
      (1 / (2 * (y.length : ℚ))) *
        (∑ i ∈ Finset.range y.length, (dot (X.getD i []) w - y.getD i 0) ^ 2) +
      (lam / (2 * (y.length : ℚ))) *
        (∑ i ∈ Finset.range (w.length - 1), (w.getD (i + 1) 0) ^ 2) := by
  have h1 : (matVec X w).length = y.length := by rw [matVec_length, h]
  have hs : sumSq (vsub (matVec X w) y) =
      ∑ i ∈ Finset.range y.length, (dot (X.getD i []) w - y.getD i 0) ^ 2 := by
    rw [sumSq_vsub_eq_sum_range _ _ h1]
    refine Finset.sum_congr rfl (fun i hi => ?_)
    rw [matVec_getD X w i (by rw [h]; exact Finset.mem_range.mp hi)]
  have ht : sumSq w.tail =
      ∑ i ∈ Finset.range (w.length - 1), (w.getD (i + 1) 0) ^ 2 := by
    cases w with
    | nil => simp [sumSq]
    | cons x xs =>
      rw [List.tail_cons, sumSq_eq_sum_range]
      simp
  simp only [cost]
  rw [hs, ht]

/-- Witness for C5 at `X = [[1,2],[3,4]]`, `y = [5,6]`, `w = [7,8,9]`,
`lambda_ = 2`. -/
theorem C5_cost_formula_witness :
    ([[(1 : ℚ), 2], [3, 4]].length = [(5 : ℚ), 6].length) ∧
    cost [[(1 : ℚ), 2], [3, 4]] [5, 6] [7, 8, 9] 2 =
      (1 / (2 * (([(5 : ℚ), 6].length : ℕ) : ℚ))) *
        (∑ i ∈ Finset.range [(5 : ℚ), 6].length,
          (dot ([[(1 : ℚ), 2], [3, 4]].getD i []) [7, 8, 9] - [(5 : ℚ), 6].getD i 0) ^ 2) +
      ((2 : ℚ) / (2 * (([(5 : ℚ), 6].length : ℕ) : ℚ))) *
        (∑ i ∈ Finset.range ([(7 : ℚ), 8, 9].length - 1),
          ([(7 : ℚ), 8, 9].getD (i + 1) 0) ^ 2) :=
  ⟨rfl, C5_cost_formula [[1, 2], [3, 4]] [5, 6] [7, 8, 9] 2 rfl⟩

/-- Claim C6: `predict` re-augments its argument with a leading ones column
and returns exactly `X_augmented · w` for the stored `w`, and nothing else;
in particular on the training data (same row count as `y`) it returns
exactly the stored augmented matrix times the stored weights. -/
theorem C6_predict_formula (w : List ℚ) (X : NpArray) (y : List ℚ) (s : String) :
    predict w X y s = matVec (augMat X.dim0 X.toMat) w ∧
    ∀ (pinv : List (List ℚ) → List (List ℚ)) (alpha : ℚ) (y0 : List ℚ)
      (n : ℕ) (lam : ℚ),
      X.dim0 = y0.length →
      predict (fit pinv alpha X y0 n lam).1.w X y s =
        matVec (fit pinv alpha X y0 n lam).1.X (fit pinv alpha X y0 n lam).1.w := by
  constructor
  · simp only [predict]
    rw [augInput_eq_augMat]
  · intro pinv alpha y0 n lam hdim
    simp only [predict]
    rw [fit_state_X, hdim]

/-- Witness for C6 at the trained model `fit` on `X = [[5]]`, `y = [7]`. -/
theorem C6_predict_formula_witness :
    (NpArray.dim0 (NpArray.mat [[5]]) = [(7 : ℚ)].length) ∧
    predict (fit pinvTriv 1 (NpArray.mat [[5]]) [7] 3 0).1.w
        (NpArray.mat [[5]]) [] "rmse" =
      matVec (fit pinvTriv 1 (NpArray.mat [[5]]) [7] 3 0).1.X
        (fit pinvTriv 1 (NpArray.mat [[5]]) [7] 3 0).1.w :=
  ⟨rfl, (C6_predict_formula [] (NpArray.mat [[5]]) [] "rmse").2
    pinvTriv 1 [7] 3 0 rfl⟩

/-- Claim C7: `score` returns the Scorer rmse for the string `rmse`, the
Scorer mse for the string `mse`, and for every other string no branch
assigns the result (modelled as `none`), rather than a defined value or a
deliberately raised error. -/
theorem C7_score_dispatch (rmse_ mse_ : List ℚ → List ℚ → ℚ) (y y_hat : List ℚ) :
    score rmse_ mse_ y y_hat "rmse" = some (rmse_ y y_hat) ∧
    score rmse_ mse_ y y_hat "mse" = some (mse_ y y_hat) ∧
    ∀ s : String, s ≠ "rmse" → s ≠ "mse" → score rmse_ mse_ y y_hat s = none := by
  refine ⟨rfl, by simp [score], ?_⟩
  intro s h1 h2
  simp [score, h1, h2]

/-- Witness for C7 at the unrecognized metric string `mae`. -/
theorem C7_score_dispatch_witness :
    ("mae" ≠ "rmse") ∧ ("mae" ≠ "mse") ∧
    score (fun _ _ => (0 : ℚ)) (fun _ _ => 1) [2] [3] "mae" = none :=
  ⟨by decide, by decide,
    (C7_score_dispatch (fun _ _ => 0) (fun _ _ => 1) [2] [3]).2.2 "mae"
      (by decide) (by decide)⟩

/-- Claim C8: calling `fit` (and `predict`) with a bare 1-D vector produces
exactly the same returned values and stored state as calling it with the
corresponding one-column matrix. -/
theorem C8_vector_matrix_agree (pinv : List (List ℚ) → List (List ℚ))
    (alpha : ℚ) (v y : List ℚ) (n : ℕ) (lam : ℚ) :
    fit pinv alpha (NpArray.vec v) y n lam =
      fit pinv alpha (NpArray.mat (v.map (fun x => [x]))) y n lam ∧
    ∀ (w y0 : List ℚ) (s : String),
      predict w (NpArray.vec v) y0 s =
        predict w (NpArray.mat (v.map (fun x => [x]))) y0 s := by
  constructor
  · rfl
  · intro w y0 s
    simp [predict, NpArray.dim0, augInput]

/-- Claim C10: the value of `predict` depends only on `X` and the stored
weights; its `y` and `score` parameters are ignored. -/
theorem C10_predict_ignores_y_score (w : List ℚ) (X : NpArray)
    (y1 y2 : List ℚ) (s1 s2 : String) :
    predict w X y1 s1 = predict w X y2 s2 := rfl

/-- Claim C2: with `m` examples, `fit` solves by the normal equation when
`m < 10` (the returned weights and history ignore `num_iters`, and the
history is `none`), and otherwise runs batch gradient descent for exactly
`num_iters` iterations (the returned weights are the `num_iters`-fold
iterate of the step function, with no early termination) and returns the
cost history. -/
theorem C2_fit_algorithm_selection (pinv : List (List ℚ) → List (List ℚ))
    (alpha : ℚ) (X : NpArray) (y : List ℚ) (n n' : ℕ) (lam : ℚ) :
    (y.length < 10 →
      (fit pinv alpha X y n lam).1.w = normal_eqn pinv (augInput y.length X) y ∧
      (fit pinv alpha X y n lam).2 = none ∧
      (fit pinv alpha X y n lam).1.w = (fit pinv alpha X y n' lam).1.w ∧
      (fit pinv alpha X y n lam).2 = (fit pinv alpha X y n' lam).2) ∧
    (10 ≤ y.length →
      (fit pinv alpha X y n lam).1.w =
        (gdStep alpha lam (augInput y.length X) y)^[n]
          (zerosW (augInput y.length X)) ∧
      (fit pinv alpha X y n lam).2 =
        some ((gradient_descent alpha lam (augInput y.length X) y n).2)) := by
  constructor
  · intro h
    simp [fit, h]
  · intro h
    have h' : ¬ y.length < 10 := by omega
    simp [fit, h', gradient_descent, gdAux_fst]

/-- Witness for C2: both branches at concrete inputs (`m = 1` and `m = 10`). -/
theorem C2_fit_algorithm_selection_witness :
    ([(2 : ℚ)].length < 10 ∧
      ((fit pinvTriv 1 (NpArray.mat [[1]]) [2] 3 0).1.w =
          normal_eqn pinvTriv (augInput [(2 : ℚ)].length (NpArray.mat [[1]])) [2] ∧
        (fit pinvTriv 1 (NpArray.mat [[1]]) [2] 3 0).2 = none ∧
        (fit pinvTriv 1 (NpArray.mat [[1]]) [2] 3 0).1.w =
          (fit pinvTriv 1 (NpArray.mat [[1]]) [2] 7 0).1.w ∧
        (fit pinvTriv 1 (NpArray.mat [[1]]) [2] 3 0).2 =
          (fit pinvTriv 1 (NpArray.mat [[1]]) [2] 7 0).2)) ∧
    (10 ≤ y10.length ∧
      ((fit pinvTriv 1 (NpArray.mat X10) y10 2 0).1.w =
          (gdStep 1 0 (augInput y10.length (NpArray.mat X10)) y10)^[2]
            (zerosW (augInput y10.length (NpArray.mat X10))) ∧
        (fit pinvTriv 1 (NpArray.mat X10) y10 2 0).2 =
          some ((gradient_descent 1 0 (augInput y10.length (NpArray.mat X10)) y10 2).2))) :=
  ⟨⟨by decide,
    (C2_fit_algorithm_selection pinvTriv 1 (NpArray.mat [[1]]) [2] 3 7 0).1 (by decide)⟩,
   ⟨by decide,
    (C2_fit_algorithm_selection pinvTriv 1 (NpArray.mat X10) y10 2 0 0).2 (by decide)⟩⟩

/-- Claim C4: on the normal-equation path (`m < 10`) the learned weights
are `pinv(Xa.T . Xa) . Xa.T . y` for the augmented design matrix `Xa`,
and no cost history is produced. -/
theorem C4_normal_equation_weights (pinv : List (List ℚ) → List (List ℚ))
    (alpha : ℚ) (X : NpArray) (y : List ℚ) (n : ℕ) (lam : ℚ)
    (h : y.length < 10) :
    (fit pinv alpha X y n lam).1.w =
      matVec (matMul (pinv (matMul (augInput y.length X).transpose
        (augInput y.length X))) (augInput y.length X).transpose) y ∧
    (fit pinv alpha X y n lam).2 = none := by
  simp [fit, h, normal_eqn]

/-- Witness for C4 at `X = [[1]]`, `y = [2]` (`m = 1`). -/
theorem C4_normal_equation_weights_witness :
    ([(2 : ℚ)].length < 10) ∧
    ((fit pinvTriv 1 (NpArray.mat [[1]]) [2] 3 0).1.w =
      matVec (matMul (pinvTriv (matMul
        (augInput [(2 : ℚ)].length (NpArray.mat [[1]])).transpose
        (augInput [(2 : ℚ)].length (NpArray.mat [[1]]))))
        (augInput [(2 : ℚ)].length (NpArray.mat [[1]])).transpose) [2] ∧
    (fit pinvTriv 1 (NpArray.mat [[1]]) [2] 3 0).2 = none) :=
  ⟨by decide,
   C4_normal_equation_weights pinvTriv 1 (NpArray.mat [[1]]) [2] 3 0 (by decide)⟩

/-- Claim C9: when gradient descent runs (`m >= 10`), the returned cost
history contains the pair `(i, c)` exactly when `i < num_iters`,
`i mod 10 = 0`, and `c` is the regularized cost evaluated at the weights
after the update of iteration `i`; no other keys are present. -/
theorem C9_cost_history_keys (pinv : List (List ℚ) → List (List ℚ))
    (alpha lam : ℚ) (X : NpArray) (y : List ℚ) (n : ℕ)
    (h : 10 ≤ y.length) :
    ∃ cpi, (fit pinv alpha X y n lam).2 = some cpi ∧
      ∀ i c, ((i, c) ∈ cpi ↔
        i < n ∧ i % 10 = 0 ∧
        c = cost (augInput y.length X) y
              (gdW alpha lam (augInput y.length X) y (i + 1)) lam) := by
  have h' : ¬ y.length < 10 := by omega
  refine ⟨(gradient_descent alpha lam (augInput y.length X) y n).2,
    by simp [fit, h'], ?_⟩
  intro i c
  rw [gradient_descent, gdAux_snd]
  simp only [Nat.zero_add, List.mem_filterMap, List.mem_range, gdW]
  constructor
  · rintro ⟨j, hjn, hf⟩
    by_cases hmod : j % 10 = 0
    · rw [if_pos hmod] at hf
      simp only [Option.some.injEq, Prod.mk.injEq] at hf
      obtain ⟨rfl, rfl⟩ := hf
      exact ⟨hjn, hmod, rfl⟩
    · rw [if_neg hmod] at hf
      cases hf
  · rintro ⟨hin, hmod, hc⟩
    refine ⟨i, hin, ?_⟩
    rw [if_pos hmod, hc]

/-- Witness for C9 at the concrete `m = 10` scenario with 11 iterations. -/
theorem C9_cost_history_keys_witness :
    (10 ≤ y10.length) ∧
    ∃ cpi, (fit pinvTriv 1 (NpArray.mat X10) y10 11 0).2 = some cpi ∧
      ∀ i c, ((i, c) ∈ cpi ↔
        i < 11 ∧ i % 10 = 0 ∧
        c = cost (augInput y10.length (NpArray.mat X10)) y10
              (gdW 1 0 (augInput y10.length (NpArray.mat X10)) y10 (i + 1)) 0) :=
  ⟨by decide, C9_cost_history_keys pinvTriv 1 0 (NpArray.mat X10) y10 11 (by decide)⟩

/-- Claim C1 (code bug): at `alpha = 1/2`, `lambda_ = 0`, augmented
`X = [[1, 1]]`, `y = [1]`, after two iterations the code yields
`w = [0, 1/2]`: the statement `w_ = self.w` binds an alias, not a copy, so
`w_[0] = 0` zeroes the bias of `self.w` itself before the update.  The
iteration the claim describes, in which only the regularization term uses
the zeroed copy and `w` keeps its bias component, yields `w = [1/2, 1/2]`
at the same input. -/
theorem C1_bias_zeroed_by_aliasing :
    gdW (1/2) 0 [[1, 1]] [1] 2 = [0, 1/2] ∧
    gdWSpec (1/2) 0 [[1, 1]] [1] 2 = [1/2, 1/2] ∧
    gdW (1/2) 0 [[1, 1]] [1] 2 ≠ gdWSpec (1/2) 0 [[1, 1]] [1] 2 := by
  decide!

/-- Claim C3 counterexample: for the concrete scenario
`X = [[1],...,[10]]`, `y = [2,...,20]` (`m = 10`), the cost history
returned by `fit` is not `None`, so `fit` took the gradient-descent path
and not the normal-equation path the claim states (`m = 10` fails the
`m < 10` test). -/
theorem C3_m10_takes_gradient_descent :
    (fit pinvTriv (1/100) (NpArray.mat X10) y10 100 0).2 ≠ none := by
  simp [fit, y10]

/-- Claim C3 as amended: for the concrete scenario (`m = 10`), `fit` takes
the gradient-descent path (non-`None` cost history); at the default
learning rate `0.01` with `lambda_ = 0` and `num_iters = 100` the learned
weights are within `10 ^ (-6)` of `[0, 2]` and `predict [[11]]` is within
`10 ^ (-6)` of `[22]`. -/
theorem C3_m10_scenario_amended :
    (fit pinvTriv (1/100) (NpArray.mat X10) y10 100 0).2 ≠ none ∧
    |(fit pinvTriv (1/100) (NpArray.mat X10) y10 100 0).1.w.getD 0 0| ≤ 1 / 1000000 ∧
    |(fit pinvTriv (1/100) (NpArray.mat X10) y10 100 0).1.w.getD 1 0 - 2| ≤ 1 / 1000000 ∧
    |(predict (fit pinvTriv (1/100) (NpArray.mat X10) y10 100 0).1.w
        (NpArray.mat [[11]]) [] "rmse").getD 0 0 - 22| ≤ 1 / 1000000 := by
  decide!

end LinReg
